import Mathlib

/-!
# Verification of the beeMonitorAnalysis pipeline (`analysis.py`)

A shallow embedding of the data pipeline in `analysis.py`:

* `pd.read_csv` output is modelled as a `Table`: a list of column names plus
  a list of rows, each row a positional list of `Cell`s.
* The normalizer `load_latest_month_csv` (after the file read, which is an
  external collaborator) is `normalize`: alias renaming, required-column
  check, `pollen_rate` derivation with a missing-value sentinel for zero
  denominators, three-strategy timestamp parsing, and a sort by timestamp.
* `filter_by_day_range`, the three ten-day windows of `main`, and the two
  plot functions are embedded with the file system as an explicit
  association list from file names to rendered chart data.

Machine reals from pandas are modelled as `ℚ` (the CSV counts are exact
small integers, so no rounding is involved); pandas missing values
(`pd.NA` / `NaN`) are modelled by the `Cell.na` constructor and by `none`
in `Option ℚ` series.
-/

namespace BeeMonitor

/-- A calendar timestamp with minute precision, the result of parsing a
`dt` cell (`pd.Timestamp` restricted to the fields this pipeline uses). -/
structure Timestamp where
  year : Nat
  month : Nat
  day : Nat
  hour : Nat
  minute : Nat
deriving DecidableEq, Repr

/-- A single cell of the data frame: a raw string, a numeric value, a
parsed timestamp, or a missing value (`NaN` / `pd.NA`). -/
inductive Cell where
  | str : String → Cell
  | num : ℚ → Cell
  | time : Timestamp → Cell
  | na : Cell
deriving DecidableEq, Repr

/-- A pandas `DataFrame`: named columns and positionally indexed rows.
Rows are kept in frame order; `reset_index(drop=True)` makes the pandas
index coincide with the positional index, so the index is not modelled
separately. -/
structure Table where
  cols : List String
  rows : List (List Cell)
deriving DecidableEq, Repr

/-- Rectangularity: every row has exactly one cell per column.  This is
guaranteed for any frame produced by `pd.read_csv`. -/
def Table.Rect (t : Table) : Prop := ∀ r ∈ t.rows, r.length = t.cols.length

instance (t : Table) : Decidable t.Rect := by
  unfold Table.Rect; infer_instance

/-- Position of a column name in a column list (`df.columns.get_loc`). -/
def idxOf? : List String → String → Option Nat
  | [], _ => none
  | c :: cs, d => if c = d then some 0 else (idxOf? cs d).map (· + 1)

/-- Index of a named column in the table. -/
def Table.colIdx (t : Table) (c : String) : Option Nat := idxOf? t.cols c

/-- Column access `df[c]`: the list of cells of column `c` in row order
(missing cells of ragged rows read as `na`; absent column reads as the
empty series — the pipeline only accesses columns it has validated). -/
def Table.col (t : Table) (c : String) : List Cell :=
  match t.colIdx c with
  | some j => t.rows.map (fun r => (r[j]?).getD Cell.na)
  | none => []

/-- Numeric view of a cell: pandas arithmetic treats non-numeric entries
of a count column as missing. -/
def cellNum : Cell → Option ℚ
  | Cell.num q => some q
  | _ => none

/-- String view of a cell (used for the unparsed `dt` column). -/
def cellStr : Cell → Option String
  | Cell.str s => some s
  | _ => none

/-- Numeric series of a column, `NaN` as `none`. -/
def Table.colNum (t : Table) (c : String) : List (Option ℚ) :=
  (t.col c).map cellNum

/-- `analysis.py` lines 27–30: the alias map `inpollen → in_pollen`,
`outpollen → out_pollen` applied to one column name.  `df.rename` with the
conditionally built map has exactly this effect on every column label. -/
def renameCol (c : String) : String :=
  if c = "inpollen" then "in_pollen"
  else if c = "outpollen" then "out_pollen"
  else c

/-- `analysis.py` lines 26–32: alias reconciliation.  `rename` relabels
columns and leaves the data untouched. -/
def renameAliases (t : Table) : Table :=
  { t with cols := t.cols.map renameCol }

/-- `analysis.py` lines 34–38: the required canonical column names. -/
def need_cols : List String :=
  ["dt", "in_worker", "out_worker", "in_pollen", "out_pollen",
   "in_drone", "out_drone"]

/-- `analysis.py` line 40: the required columns absent from the table, in
`need_cols` order. -/
def missingCols (t : Table) : List String :=
  need_cols.filter (fun c => !(t.cols.contains c))

/-- Element-wise series addition with missing-value propagation
(`df['in_worker'] + df['in_pollen'] + df['in_drone']`). -/
def seriesAdd (a b : List (Option ℚ)) : List (Option ℚ) :=
  List.zipWith (fun x y =>
    match x, y with
    | some x, some y => some (x + y)
    | _, _ => none) a b

/-- `total_in.replace(0, pd.NA)`: exact zeros become missing. -/
def seriesReplaceZeroNA (a : List (Option ℚ)) : List (Option ℚ) :=
  a.map (fun x =>
    match x with
    | some q => if q = 0 then none else some q
    | none => none)

/-- Element-wise series division with missing-value propagation
(`pollen_in / total_in`; the denominator series never contains an exact
zero after the `replace`, so the division never traps). -/
def seriesDiv (a b : List (Option ℚ)) : List (Option ℚ) :=
  List.zipWith (fun x y =>
    match x, y with
    | some x, some y => some (x / y)
    | _, _ => none) a b

/-- Store a possibly-missing number back into a cell. -/
def cellOfOpt : Option ℚ → Cell
  | some q => Cell.num q
  | none => Cell.na

/-- `analysis.py` lines 44–49: if `pollen_rate` is absent, append it,
computed per row as `in_pollen / (in_worker + in_pollen + in_drone)` with
a zero denominator replaced by a missing value before the division. -/
def addPollenRate (t : Table) : Table :=
  if t.cols.contains "pollen_rate" then t
  else
    let total := seriesAdd (seriesAdd (t.colNum "in_worker") (t.colNum "in_pollen"))
      (t.colNum "in_drone")
    let rate := seriesDiv (t.colNum "in_pollen") (seriesReplaceZeroNA total)
    { cols := t.cols ++ ["pollen_rate"],
      rows := List.zipWith (fun r v => r ++ [cellOfOpt v]) t.rows rate }

/-- Gregorian leap-year test. -/
def isLeap (y : Nat) : Bool :=
  (y % 4 == 0 && y % 100 != 0) || y % 400 == 0

/-- Number of days of month `m` of year `y`. -/
def daysInMonth (y m : Nat) : Nat :=
  if m = 2 then (if isLeap y then 29 else 28)
  else if m = 4 ∨ m = 6 ∨ m = 9 ∨ m = 11 then 30
  else 31

/-- A calendar-valid timestamp, or `none` (`strptime` rejects
out-of-range fields and impossible dates). -/
def mkTimestamp (y m d h mi : Nat) : Option Timestamp :=
  if 1 ≤ m ∧ m ≤ 12 ∧ 1 ≤ d ∧ d ≤ daysInMonth y m ∧ h ≤ 23 ∧ mi ≤ 59 then
    some ⟨y, m, d, h, mi⟩
  else none

/-- Split a character list on a separator character (the separators of the
two accepted fixed formats are single characters). -/
def splitOnChar (c : Char) : List Char → List (List Char)
  | [] => [[]]
  | x :: xs =>
    let rest := splitOnChar c xs
    if x = c then [] :: rest
    else
      match rest with
      | [] => [[x]]
      | g :: gs => (x :: g) :: gs

/-- A field of 1 to `hi` decimal digits, as in `strptime` numeric
directives (`%m`, `%d`, `%H`, `%M` accept 1–2 digits, `%Y` 1–4). -/
def parseNatDigits (hi : Nat) (l : List Char) : Option Nat :=
  if 1 ≤ l.length ∧ l.length ≤ hi ∧ l.all Char.isDigit then
    some (l.foldl (fun acc c => acc * 10 + (c.toNat - 48)) 0)
  else none

/-- `strptime`-style parse of `"Y<sep>M<sep>D H:MM"` – the shape shared by
the two fixed formats of `analysis.py` line 52, differing only in the
date separator. -/
def parseWithSep (sep : Char) (s : String) : Option Timestamp :=
  match splitOnChar ' ' s.data with
  | [datePart, timePart] =>
    match splitOnChar sep datePart, splitOnChar ':' timePart with
    | [ys, ms, ds], [hs, mis] => do
      let y ← parseNatDigits 4 ys
      let m ← parseNatDigits 2 ms
      let d ← parseNatDigits 2 ds
      let h ← parseNatDigits 2 hs
      let mi ← parseNatDigits 2 mis
      mkTimestamp y m d h mi
    | _, _ => none
  | _ => none

/-- The `"%Y/%m/%d %H:%M"` format of `analysis.py` line 52. -/
def parseSlash : String → Option Timestamp := parseWithSep '/'

/-- The `"%Y-%m-%d %H:%M"` format of `analysis.py` line 52. -/
def parseDash : String → Option Timestamp := parseWithSep '-'

/-- All-or-nothing elementwise application: `some` iff `f` succeeds on
every element (the semantics of a vectorised pandas operation with
`errors="raise"`). -/
def traverseOption {α β : Type} (f : α → Option β) : List α → Option (List β)
  | [] => some []
  | a :: as => do
    let b ← f a
    let bs ← traverseOption f as
    pure (b :: bs)

/-- Strategy 2: `pd.to_datetime(df["dt"], format="%Y/%m/%d %H:%M")` –
succeeds only if every row parses (`errors` defaults to `"raise"`). -/
def slashStrategy (ss : List String) : Option (List Timestamp) :=
  traverseOption parseSlash ss

/-- Strategy 3: `pd.to_datetime(df["dt"], format="%Y-%m-%d %H:%M")`. -/
def dashStrategy (ss : List String) : Option (List Timestamp) :=
  traverseOption parseDash ss

/-- Strategy 1, `analysis.py` lines 55–57: automatic format inference.
Models pandas inference restricted to the two timestamp layouts this
pipeline accepts: the format is guessed from the first entry and then
applied to every row, raising on any mismatch.  (Real inference also
recognises further layouts that never occur in this pipeline's data;
the fallback-order theorem does not depend on which inputs strategy 1
accepts.) -/
def inferStrategy (ss : List String) : Option (List Timestamp) :=
  match ss with
  | [] => some []
  | s0 :: _ =>
    if (parseSlash s0).isSome then slashStrategy ss
    else if (parseDash s0).isSome then dashStrategy ss
    else none

/-- `analysis.py` lines 52–64: try the three parsing strategies in order
and keep the first that parses every row. -/
def tryFormats (ss : List String) : Option (List Timestamp) :=
  match inferStrategy ss with
  | some ts => some ts
  | none =>
    match slashStrategy ss with
    | some ts => some ts
    | none => dashStrategy ss

/-- The strategy tried at position `k` of the fallback chain. -/
def strategyAt : Nat → List String → Option (List Timestamp)
  | 0 => inferStrategy
  | 1 => slashStrategy
  | _ => dashStrategy

/-- `df[c] = vals`: overwrite an existing column in place, or append a new
one (the pipeline only overwrites the existing `dt` column). -/
def Table.setCol (t : Table) (c : String) (vals : List Cell) : Table :=
  match t.colIdx c with
  | some j => { t with rows := List.zipWith (fun r v => r.set j v) t.rows vals }
  | none =>
    { cols := t.cols ++ [c],
      rows := List.zipWith (fun r v => r ++ [v]) t.rows vals }

/-- The datetime-parsing step of `analysis.py` lines 52–64, applied to the
`dt` column: succeeds iff the cells are strings and one strategy parses
them all; on success the column is overwritten with the parsed
timestamps. -/
def parseDtCol (t : Table) : Option Table :=
  match traverseOption cellStr (t.col "dt") with
  | none => none
  | some ss =>
    match tryFormats ss with
    | none => none
    | some ts => some (t.setCol "dt" (ts.map Cell.time))

/-- Chronological sort key of a timestamp (strictly monotone in
(year, month, day, hour, minute) for calendar-valid timestamps). -/
def Timestamp.key (ts : Timestamp) : Nat :=
  (((ts.year * 12 + (ts.month - 1)) * 31 + (ts.day - 1)) * 24 + ts.hour) * 60
    + ts.minute

/-- Sort key of a row, read from its `dt` cell at column index `j`. -/
def rowKey (j : Nat) (r : List Cell) : Nat :=
  match r[j]? with
  | some (Cell.time ts) => ts.key
  | _ => 0

/-- Day-of-month of a row (`df["dt"].dt.day`), read from its `dt` cell. -/
def rowDay (j : Nat) (r : List Cell) : Nat :=
  match r[j]? with
  | some (Cell.time ts) => ts.day
  | _ => 0

/-- `analysis.py` line 66: `df.sort_values("dt").reset_index(drop=True)`.
The rows are reordered ascending by timestamp; the tie order of
`sort_values`'s default quicksort is an implementation detail of the
underlying library and is represented here by a straightforward
comparison sort. -/
def sortByDt (t : Table) : Table :=
  match t.colIdx "dt" with
  | some j =>
    { t with rows := List.insertionSort (fun r s => rowKey j r ≤ rowKey j s) t.rows }
  | none => t

/-- The errors `load_latest_month_csv` can raise after the file read: the
`ValueError` of line 42, whose message contains exactly the list of
missing columns, and the `ValueError` of line 64 for unparseable
timestamps. -/
inductive LoadError where
  | missingColumns : List String → LoadError
  | cannotParseDt : LoadError
deriving DecidableEq, Repr

instance {ε α : Type} [DecidableEq ε] [DecidableEq α] : DecidableEq (Except ε α) :=
  fun x y =>
    match x, y with
    | Except.ok a, Except.ok b => decidable_of_iff (a = b) (by simp)
    | Except.error a, Except.error b => decidable_of_iff (a = b) (by simp)
    | Except.ok _, Except.error _ => isFalse (by simp)
    | Except.error _, Except.ok _ => isFalse (by simp)

/-- `analysis.py` lines 25–67: the normalizer `load_latest_month_csv`
from the point where the raw frame has been read: alias renaming, the
required-column check, `pollen_rate` derivation, timestamp parsing with
fallback, and the final sort. -/
def normalize (t : Table) : Except LoadError Table :=
  if (missingCols (renameAliases t)).isEmpty then
    match parseDtCol (addPollenRate (renameAliases t)) with
    | some t3 => Except.ok (sortByDt t3)
    | none => Except.error LoadError.cannotParseDt
  else Except.error (LoadError.missingColumns (missingCols (renameAliases t)))

/-- `analysis.py` lines 70–74: keep the rows whose day-of-month lies in
the inclusive band `[dayStart, dayEnd]`, in their original order.  (The
`dt` column always exists on the segmenter's input; the absent-column
case mirrors a failed lookup, which produces no rows.) -/
def filter_by_day_range (t : Table) (dayStart dayEnd : Nat) : Table :=
  match t.colIdx "dt" with
  | some j =>
    { t with rows :=
        t.rows.filter (fun r => decide (dayStart ≤ rowDay j r ∧ rowDay j r ≤ dayEnd)) }
  | none => { t with rows := [] }

/-- Day-of-month view of a cell. -/
def cellDay : Cell → Nat
  | Cell.time ts => ts.day
  | _ => 0

/-- `analysis.py` line 239: `df["dt"].dt.day.max()`, the maximum observed
day-of-month.  (On an empty frame pandas returns `NaN`; the segmentation
theorems therefore assume at least one row.) -/
def lastDay (t : Table) : Nat :=
  ((t.col "dt").map cellDay).foldr max 0

/-- `f"{n:02d}"` for the day numbers that occur here. -/
def pad2 (n : Nat) : String :=
  if n < 10 then "0" ++ toString n else toString n

/-- `analysis.py` lines 241–245: the three day-of-month windows. -/
def windows (t : Table) : List (Nat × Nat × String) :=
  [(1, 10, "01-10"), (11, 20, "11-20"),
   (21, lastDay t, "21-" ++ pad2 (lastDay t))]

/-- The three filtered sub-tables, in window order. -/
def segments (t : Table) : List Table :=
  (windows t).map (fun w => filter_by_day_range t w.1 w.2.1)

/-- The drawing-relevant content of one rendered figure: its title and,
for each plotted line, its legend label and its `(x, y)` sample points.
Fixed styling (colors, tick locators, figure size, shading geometry,
which is itself a function of the plotted `dt` values) carries no
additional input-dependent information. -/
structure Chart where
  title : String
  series : List (String × List (Cell × Cell))
deriving DecidableEq, Repr

/-- One plotted line: `ax.plot(dff["dt"], dff[c], label=lab)`. -/
def seriesOf (t : Table) (c : String) : List (Cell × Cell) :=
  (t.col "dt").zip (t.col c)

/-- `analysis.py` lines 99–187: the six-series traffic chart drawn from a
window's sub-table. -/
def inoutChart (dff : Table) (label : String) : Chart :=
  { title := label ++ " day window: Bee in/out counts",
    series :=
      [("Worker IN (in_worker)", seriesOf dff "in_worker"),
       ("Worker OUT (out_worker)", seriesOf dff "out_worker"),
       ("Pollen worker IN (in_pollen)", seriesOf dff "in_pollen"),
       ("Pollen worker OUT (out_pollen)", seriesOf dff "out_pollen"),
       ("Drone IN (in_drone)", seriesOf dff "in_drone"),
       ("Drone OUT (out_drone)", seriesOf dff "out_drone")] }

/-- `analysis.py` lines 190–228: the single-series pollen-ratio chart. -/
def pollenChart (dff : Table) (label : String) : Chart :=
  { title := label ++ " day window: Pollen ratio",
    series := [("Pollen ratio", seriesOf dff "pollen_rate")] }

/-- The output directory as a mapping from file names to chart contents,
newest write first. -/
abbrev FS := List (String × Chart)

/-- `plt.savefig(out_path)`: create or overwrite one file. -/
def fsWrite (fs : FS) (name : String) (c : Chart) : FS :=
  (name, c) :: fs.filter (fun p => !(p.1 == name))

/-- Read one file of the output directory. -/
def fsGet (fs : FS) (name : String) : Option Chart :=
  (fs.find? (fun p => p.1 == name)).map (fun p => p.2)

/-- `df.empty`: true iff either axis has length zero. -/
def Table.isEmptyDf (t : Table) : Bool :=
  t.rows.isEmpty || t.cols.isEmpty

/-- `analysis.py` lines 99–187 as a file-system transformer: an empty
sub-table is skipped (no write at all, lines 101–103); otherwise the
traffic chart is written to `inout_<label>.png`. -/
def plot_inout_window (dff : Table) (label : String) (fs : FS) : FS :=
  if dff.isEmptyDf then fs
  else fsWrite fs ("inout_" ++ label ++ ".png") (inoutChart dff label)

/-- `analysis.py` lines 190–228 as a file-system transformer: an empty
sub-table is skipped (lines 192–194); otherwise the pollen chart is
written to `pollen_<label>.png`. -/
def plot_pollen_window (dff : Table) (label : String) (fs : FS) : FS :=
  if dff.isEmptyDf then fs
  else fsWrite fs ("pollen_" ++ label ++ ".png") (pollenChart dff label)

/-- One iteration of the loop of `analysis.py` lines 247–250: filter the
window and render its two charts. -/
def processWindow (u : Table) (w : Nat × Nat × String) (fs : FS) : FS :=
  let dff := filter_by_day_range u w.1 w.2.1
  plot_pollen_window dff w.2.2 (plot_inout_window dff w.2.2 fs)

/-- The full window loop of `main`. -/
def runWindows (u : Table) (ws : List (Nat × Nat × String)) (fs : FS) : FS :=
  ws.foldl (fun acc w => processWindow u w acc) fs

/-- `analysis.py` lines 231–252: `main` after the input file has been
located — a load error propagates before any chart is drawn. -/
def runMain (t : Table) (fs : FS) : FS :=
  match normalize t with
  | Except.ok u => runWindows u (windows u) fs
  | Except.error _ => fs

/-! ## Concrete frames used by the witnesses -/

/-- A raw input frame with canonical column names, a supplied
`pollen_rate`, and slash-format timestamps on days 10, 11 and 21,
deliberately out of chronological order. -/
def exT : Table :=
  { cols := ["dt", "in_worker", "out_worker", "in_pollen", "out_pollen",
             "in_drone", "out_drone", "pollen_rate"],
    rows :=
      [[Cell.str "2024/05/11 08:00", Cell.num 3, Cell.num 2, Cell.num 1,
        Cell.num 0, Cell.num 0, Cell.num 0, Cell.num 0],
       [Cell.str "2024/05/10 07:00", Cell.num 5, Cell.num 2, Cell.num 1,
        Cell.num 0, Cell.num 0, Cell.num 0, Cell.num 0],
       [Cell.str "2024/05/21 09:00", Cell.num 4, Cell.num 2, Cell.num 1,
        Cell.num 0, Cell.num 0, Cell.num 0, Cell.num 0]] }

/-- The normalized table of `exT`. -/
def exU : Table :=
  match normalize exT with
  | Except.ok u => u
  | Except.error _ => { cols := [], rows := [] }

/-- A frame lacking the required column `out_drone`. -/
def exC4 : Table :=
  { cols := ["dt", "in_worker", "out_worker", "in_pollen", "out_pollen",
             "in_drone"],
    rows := [] }

/-- A frame whose `dt` value no strategy parses. -/
def exC3 : Table :=
  { cols := ["dt", "in_worker", "out_worker", "in_pollen", "out_pollen",
             "in_drone", "out_drone", "pollen_rate"],
    rows :=
      [[Cell.str "yesterday noon", Cell.num 1, Cell.num 1, Cell.num 1,
        Cell.num 1, Cell.num 1, Cell.num 1, Cell.num 0]] }

/-- A frame without `pollen_rate`: one row with counts `3, 1, 0` and one
all-zero row. -/
def exC1 : Table :=
  { cols := ["dt", "in_worker", "out_worker", "in_pollen", "out_pollen",
             "in_drone", "out_drone"],
    rows :=
      [[Cell.str "2024/05/01 08:00", Cell.num 3, Cell.num 2, Cell.num 1,
        Cell.num 0, Cell.num 0, Cell.num 0],
       [Cell.str "2024/05/02 08:00", Cell.num 0, Cell.num 2, Cell.num 0,
        Cell.num 0, Cell.num 0, Cell.num 0]] }

/-! ## General helper lemmas -/

theorem contains_true_iff (l : List String) (c : String) :
    l.contains c = true ↔ c ∈ l := by
  show l.elem c = true ↔ c ∈ l
  exact List.elem_iff

theorem contains_false_iff (l : List String) (c : String) :
    l.contains c = false ↔ c ∉ l := by
  rw [← Bool.not_eq_true, not_iff_not]
  exact contains_true_iff l c

theorem idxOf?_lt_length {l : List String} {c : String} {j : Nat}
    (h : idxOf? l c = some j) : j < l.length := by
  induction l generalizing j with
  | nil => simp [idxOf?] at h
  | cons a as ih =>
    rw [List.length_cons]
    by_cases hac : a = c
    · simp [idxOf?, hac] at h
      omega
    · simp [idxOf?, hac] at h
      obtain ⟨j', hj', rfl⟩ := h
      have := ih hj'
      omega

theorem idxOf?_of_mem {l : List String} {c : String} (h : c ∈ l) :
    ∃ j, idxOf? l c = some j := by
  induction l with
  | nil => simp at h
  | cons a as ih =>
    by_cases hac : a = c
    · exact ⟨0, by simp [idxOf?, hac]⟩
    · have hmem : c ∈ as := by
        cases h with
        | head => exact absurd rfl hac
        | tail _ h => exact h
      obtain ⟨j, hj⟩ := ih hmem
      exact ⟨j + 1, by simp [idxOf?, hac, hj]⟩

theorem idxOf?_append_left {l l2 : List String} {c : String} {j : Nat}
    (h : idxOf? l c = some j) : idxOf? (l ++ l2) c = some j := by
  induction l generalizing j with
  | nil => simp [idxOf?] at h
  | cons a as ih =>
    by_cases hac : a = c
    · simp [idxOf?, hac] at h ⊢
      exact h
    · simp [idxOf?, hac] at h ⊢
      obtain ⟨j', hj', rfl⟩ := h
      exact ⟨j', ih hj', rfl⟩

theorem idxOf?_append_self {l : List String} {c : String} (h : c ∉ l) :
    idxOf? (l ++ [c]) c = some l.length := by
  induction l with
  | nil => simp [idxOf?]
  | cons a as ih =>
    have hac : a ≠ c := by
      intro hh
      exact h (hh ▸ List.mem_cons_self a as)
    have has : c ∉ as := fun hh => h (List.mem_cons_of_mem a hh)
    simp [idxOf?, hac, ih has]

theorem getElem?_zipWith {α β γ : Type} {f : α → β → γ} {a : List α} {b : List β}
    {i : Nat} {x : α} {y : β} (ha : a[i]? = some x) (hb : b[i]? = some y) :
    (List.zipWith f a b)[i]? = some (f x y) := by
  induction a generalizing b i with
  | nil => simp at ha
  | cons a0 as ih =>
    cases b with
    | nil => simp at hb
    | cons b0 bs =>
      cases i with
      | zero =>
        simp at ha hb
        simp [ha, hb]
      | succ n =>
        simp at ha hb ⊢
        exact ih ha hb

theorem zipWith_getElem?_inv {α β γ : Type} {f : α → β → γ} {a : List α}
    {b : List β} {i : Nat} {z : γ} (h : (List.zipWith f a b)[i]? = some z) :
    ∃ x y, a[i]? = some x ∧ b[i]? = some y ∧ z = f x y := by
  induction a generalizing b i with
  | nil => simp at h
  | cons a0 as ih =>
    cases b with
    | nil => simp at h
    | cons b0 bs =>
      cases i with
      | zero =>
        refine ⟨a0, b0, by simp, by simp, ?_⟩
        simp at h
        exact h.symm
      | succ n =>
        simp only [List.zipWith_cons_cons, List.getElem?_cons_succ] at h ⊢
        exact ih h

theorem traverseOption_length {α β : Type} {f : α → Option β} {l : List α}
    {l' : List β} (h : traverseOption f l = some l') : l'.length = l.length := by
  induction l generalizing l' with
  | nil =>
    simp [traverseOption] at h
    simp [← h]
  | cons a as ih =>
    cases hf : f a with
    | none => simp [traverseOption, hf] at h
    | some b =>
      cases hrest : traverseOption f as with
      | none => simp [traverseOption, hf, hrest] at h
      | some bs =>
        simp [traverseOption, hf, hrest] at h
        simp [← h, ih hrest]

theorem traverseOption_mem {α β : Type} {f : α → Option β} {l : List α}
    {l' : List β} (h : traverseOption f l = some l') {x : β} (hx : x ∈ l') :
    ∃ a ∈ l, f a = some x := by
  induction l generalizing l' with
  | nil =>
    simp [traverseOption] at h
    subst h
    simp at hx
  | cons a as ih =>
    cases hf : f a with
    | none => simp [traverseOption, hf] at h
    | some b =>
      cases hrest : traverseOption f as with
      | none => simp [traverseOption, hf, hrest] at h
      | some bs =>
        simp [traverseOption, hf, hrest] at h
        subst h
        rcases List.mem_cons.mp hx with rfl | hxs
        · exact ⟨a, List.mem_cons_self a as, hf⟩
        · obtain ⟨a', ha', hfa'⟩ := ih hrest hxs
          exact ⟨a', List.mem_cons_of_mem a ha', hfa'⟩

theorem traverseOption_getElem? {α β : Type} {f : α → Option β} {l : List α}
    {l' : List β} (h : traverseOption f l = some l') {i : Nat} {x : β}
    (hx : l'[i]? = some x) : ∃ a, l[i]? = some a ∧ f a = some x := by
  induction l generalizing l' i with
  | nil =>
    simp [traverseOption] at h
    subst h
    simp at hx
  | cons a as ih =>
    cases hf : f a with
    | none => simp [traverseOption, hf] at h
    | some b =>
      cases hrest : traverseOption f as with
      | none => simp [traverseOption, hf, hrest] at h
      | some bs =>
        simp [traverseOption, hf, hrest] at h
        subst h
        cases i with
        | zero =>
          simp at hx
          exact ⟨a, by simp, hx ▸ hf⟩
        | succ n =>
          simp only [List.getElem?_cons_succ] at hx ⊢
          exact ih hrest hx

theorem le_foldr_max {l : List Nat} {x : Nat} (h : x ∈ l) :
    x ≤ l.foldr max 0 := by
  induction l with
  | nil => simp at h
  | cons a as ih =>
    rw [List.foldr_cons]
    rcases List.mem_cons.mp h with rfl | has
    · exact Nat.le_max_left _ _
    · exact Nat.le_trans (ih has) (Nat.le_max_right _ _)

theorem foldr_max_mem {l : List Nat} (h : l ≠ []) : l.foldr max 0 ∈ l := by
  induction l with
  | nil => exact absurd rfl h
  | cons a as ih =>
    rw [List.foldr_cons]
    by_cases hase : as = []
    · subst hase
      simp
    · have hmem := ih hase
      rcases Nat.le_total a (as.foldr max 0) with hle | hle
      · rw [Nat.max_eq_right hle]
        exact List.mem_cons_of_mem a hmem
      · rw [Nat.max_eq_left hle]
        exact List.mem_cons_self a as

theorem count_filter_false {α : Type} [DecidableEq α] {p : α → Bool} {x : α}
    (l : List α) (h : p x = false) : (l.filter p).count x = 0 := by
  rw [List.count_eq_zero]
  intro hm
  rw [List.mem_filter] at hm
  simp [hm.2] at h

theorem filter3_perm {α : Type} [DecidableEq α] (p1 p2 p3 : α → Bool)
    (l : List α)
    (h : ∀ x ∈ l,
      (p1 x = true ∧ p2 x = false ∧ p3 x = false) ∨
      (p1 x = false ∧ p2 x = true ∧ p3 x = false) ∨
      (p1 x = false ∧ p2 x = false ∧ p3 x = true)) :
    (l.filter p1 ++ l.filter p2 ++ l.filter p3).Perm l := by
  rw [List.perm_iff_count]
  intro x
  rw [List.count_append, List.count_append]
  by_cases hx : x ∈ l
  · rcases h x hx with ⟨h1, h2, h3⟩ | ⟨h1, h2, h3⟩ | ⟨h1, h2, h3⟩
    · rw [List.count_filter h1, count_filter_false l h2, count_filter_false l h3]
      omega
    · rw [List.count_filter h2, count_filter_false l h1, count_filter_false l h3]
      omega
    · rw [List.count_filter h3, count_filter_false l h1, count_filter_false l h2]
      omega
  · have hc : l.count x = 0 := List.count_eq_zero.mpr hx
    have c1 := List.Sublist.count_le (List.filter_sublist (p := p1) l) x
    have c2 := List.Sublist.count_le (List.filter_sublist (p := p2) l) x
    have c3 := List.Sublist.count_le (List.filter_sublist (p := p3) l) x
    omega

theorem find?_filter_ne (fs : FS) (n m : String) (h : m ≠ n) :
    (fs.filter (fun p => !(p.1 == n))).find? (fun p => p.1 == m)
      = fs.find? (fun p => p.1 == m) := by
  induction fs with
  | nil => rfl
  | cons q qs ih =>
    by_cases hq : q.1 = n
    · have hb : (!(q.1 == n)) = false := by simp [hq]
      have hm : (q.1 == m) = false := by
        simp [hq]
        exact fun hh => h hh.symm
      rw [List.filter_cons, hb, if_neg (by simp), ih]
      rw [List.find?_cons, hm]
    · have hb : (!(q.1 == n)) = true := by simp [hq]
      rw [List.filter_cons, hb, if_pos rfl]
      rw [List.find?_cons, List.find?_cons]
      cases hqm : (q.1 == m) with
      | true => rfl
      | false => exact ih

theorem fsGet_fsWrite_self (fs : FS) (n : String) (c : Chart) :
    fsGet (fsWrite fs n c) n = some c := by
  simp [fsGet, fsWrite, List.find?]

theorem fsGet_fsWrite_ne (fs : FS) (n m : String) (c : Chart) (h : m ≠ n) :
    fsGet (fsWrite fs n c) m = fsGet fs m := by
  have hnm : (n == m) = false := by
    simp
    exact fun hh => h hh.symm
  simp only [fsGet, fsWrite]
  rw [List.find?_cons]
  simp only [hnm]
  rw [find?_filter_ne fs n m h]

theorem fsWrite_idem (fs : FS) (n : String) (c : Chart) :
    fsWrite (fsWrite fs n c) n c = fsWrite fs n c := by
  simp only [fsWrite, List.filter_cons]
  simp [List.filter_filter]

/-! ## Structural lemmas about the pipeline stages -/

theorem colIdx_some_of_mem {t : Table} {c : String} (h : c ∈ t.cols) :
    ∃ j, t.colIdx c = some j ∧ j < t.cols.length := by
  obtain ⟨j, hj⟩ := idxOf?_of_mem h
  exact ⟨j, hj, idxOf?_lt_length hj⟩

theorem col_getElem?_inv {t : Table} {c : String} {i : Nat} {cl : Cell}
    (h : (t.col c)[i]? = some cl) :
    ∃ j r, t.colIdx c = some j ∧ t.rows[i]? = some r ∧ cl = (r[j]?).getD Cell.na := by
  unfold Table.col at h
  cases hj : t.colIdx c with
  | none => rw [hj] at h; simp at h
  | some j =>
    rw [hj] at h
    rw [List.getElem?_map] at h
    rw [Option.map_eq_some'] at h
    obtain ⟨r, hr, hcl⟩ := h
    exact ⟨j, r, rfl, hr, hcl.symm⟩

theorem colNum_getElem?_inv {t : Table} {c : String} {i : Nat} {q : Option ℚ}
    (h : (t.colNum c)[i]? = some q) :
    ∃ j r, t.colIdx c = some j ∧ t.rows[i]? = some r ∧ q = cellNum ((r[j]?).getD Cell.na) := by
  unfold Table.colNum at h
  rw [List.getElem?_map, Option.map_eq_some'] at h
  obtain ⟨cl, hcl, hq⟩ := h
  obtain ⟨j, r, hj, hr, rfl⟩ := col_getElem?_inv hcl
  exact ⟨j, r, hj, hr, hq.symm⟩

theorem col_of_idx {t : Table} {c : String} {j : Nat} (h : t.colIdx c = some j) :
    t.col c = t.rows.map (fun r => (r[j]?).getD Cell.na) := by
  unfold Table.col
  rw [h]

theorem rect_renameAliases {t : Table} (h : t.Rect) : (renameAliases t).Rect := by
  intro r hr
  unfold renameAliases at hr
  simp at hr
  rw [renameAliases]
  simp
  exact h r hr

theorem addPollenRate_rows_getElem?_inv {t : Table} {i : Nat} {r' : List Cell}
    (hnc : t.cols.contains "pollen_rate" = false)
    (h : (addPollenRate t).rows[i]? = some r') :
    ∃ r v, t.rows[i]? = some r ∧ r' = r ++ [cellOfOpt v] := by
  unfold addPollenRate at h
  rw [hnc] at h
  simp only [Bool.false_eq_true, if_false] at h
  obtain ⟨r, v, hr, hv, rfl⟩ := zipWith_getElem?_inv h
  exact ⟨r, v, hr, rfl⟩

theorem rect_addPollenRate {t : Table} (h : t.Rect) : (addPollenRate t).Rect := by
  unfold addPollenRate
  cases hc : t.cols.contains "pollen_rate" with
  | true => simpa using h
  | false =>
    simp only [Bool.false_eq_true, if_false]
    intro r' hr'
    rw [List.mem_iff_getElem?] at hr'
    obtain ⟨i, hi⟩ := hr'
    obtain ⟨r, v, hr, hv, rfl⟩ := zipWith_getElem?_inv hi
    have hrm : r ∈ t.rows := List.mem_iff_getElem?.mpr ⟨i, hr⟩
    simp [h r hrm]

theorem setCol_cols_of_some {t : Table} {c : String} {j : Nat} {vals : List Cell}
    (h : t.colIdx c = some j) : (t.setCol c vals).cols = t.cols := by
  unfold Table.setCol
  rw [h]

theorem setCol_rows_of_some {t : Table} {c : String} {j : Nat} {vals : List Cell}
    (h : t.colIdx c = some j) :
    (t.setCol c vals).rows = List.zipWith (fun r v => r.set j v) t.rows vals := by
  unfold Table.setCol
  rw [h]

theorem sortByDt_cols (t : Table) : (sortByDt t).cols = t.cols := by
  unfold sortByDt
  cases h : t.colIdx "dt" <;> rfl

theorem sortByDt_rows_perm (t : Table) : (sortByDt t).rows.Perm t.rows := by
  unfold sortByDt
  cases h : t.colIdx "dt" with
  | none => exact List.Perm.refl _
  | some j => exact List.perm_insertionSort _ _

theorem missingCols_eq_nil_iff {t : Table} :
    missingCols t = [] ↔ ∀ c ∈ need_cols, c ∈ t.cols := by
  unfold missingCols
  rw [List.filter_eq_nil_iff]
  constructor
  · intro h c hc
    simpa using h c hc
  · intro h c hc
    simpa using h c hc

theorem normalize_ok_inv {t u : Table} (h : normalize t = Except.ok u) :
    missingCols (renameAliases t) = []
  ∧ ∃ t3, parseDtCol (addPollenRate (renameAliases t)) = some t3 ∧ u = sortByDt t3 := by
  unfold normalize at h
  cases hm : (missingCols (renameAliases t)).isEmpty with
  | false => rw [hm] at h; simp at h
  | true =>
    rw [hm] at h
    simp only [if_true] at h
    refine ⟨List.isEmpty_iff.mp hm, ?_⟩
    cases hp : parseDtCol (addPollenRate (renameAliases t)) with
    | none => rw [hp] at h; simp at h
    | some t3 =>
      rw [hp] at h
      simp at h
      exact ⟨t3, rfl, h.symm⟩

theorem parseDtCol_inv {t t3 : Table} (h : parseDtCol t = some t3) :
    ∃ ss ts, traverseOption cellStr (t.col "dt") = some ss
  ∧ tryFormats ss = some ts ∧ t3 = t.setCol "dt" (ts.map Cell.time) := by
  unfold parseDtCol at h
  split at h
  · cases h
  · rename_i ss hss
    split at h
    · cases h
    · rename_i ts hts
      exact ⟨ss, ts, hss, hts, (Option.some.inj h).symm⟩

theorem daysInMonth_le_31 (y m : Nat) : daysInMonth y m ≤ 31 := by
  unfold daysInMonth
  split
  · split <;> omega
  · split <;> omega

theorem parseWithSep_day_valid {sep : Char} {s : String} {ts : Timestamp}
    (h : parseWithSep sep s = some ts) : 1 ≤ ts.day ∧ ts.day ≤ 31 := by
  unfold parseWithSep at h
  split at h
  case _ datePart timePart _ =>
    split at h
    case _ ys ms ds hs mis _ _ =>
      simp only [Option.bind_eq_bind, Option.bind_eq_some] at h
      obtain ⟨y, hy, m, hm, d, hd, hr, hhr, mi, hmi, hmk⟩ := h
      unfold mkTimestamp at hmk
      split at hmk
      case _ hcond =>
        obtain ⟨_, _, h1, h2, _, _⟩ := hcond
        cases hmk
        exact ⟨h1, Nat.le_trans h2 (daysInMonth_le_31 y m)⟩
      case _ => cases hmk
    case _ => cases h
  case _ => cases h

theorem traverseOption_day_valid {ss : List String} {ts : List Timestamp}
    {p : String → Option Timestamp}
    (hp : ∀ s t, p s = some t → 1 ≤ t.day ∧ t.day ≤ 31)
    (h : traverseOption p ss = some ts) :
    ∀ x ∈ ts, 1 ≤ x.day ∧ x.day ≤ 31 := by
  intro x hx
  obtain ⟨s, _, hs⟩ := traverseOption_mem h hx
  exact hp s x hs

theorem tryFormats_day_valid {ss : List String} {ts : List Timestamp}
    (h : tryFormats ss = some ts) : ∀ x ∈ ts, 1 ≤ x.day ∧ x.day ≤ 31 := by
  have hslash : ∀ (ss' : List Timestamp), slashStrategy ss = some ss' →
      ∀ x ∈ ss', 1 ≤ x.day ∧ x.day ≤ 31 := by
    intro ss' hss'
    exact traverseOption_day_valid (fun s t ht => parseWithSep_day_valid ht) hss'
  have hdash : ∀ (ss' : List Timestamp), dashStrategy ss = some ss' →
      ∀ x ∈ ss', 1 ≤ x.day ∧ x.day ≤ 31 := by
    intro ss' hss'
    exact traverseOption_day_valid (fun s t ht => parseWithSep_day_valid ht) hss'
  have hinf : ∀ (ss' : List Timestamp), inferStrategy ss = some ss' →
      ∀ x ∈ ss', 1 ≤ x.day ∧ x.day ≤ 31 := by
    intro ss' hss'
    unfold inferStrategy at hss'
    split at hss'
    · cases hss'
      intro x hx
      simp at hx
    · split at hss'
      · exact hslash ss' hss'
      · split at hss'
        · exact hdash ss' hss'
        · cases hss'
  unfold tryFormats at h
  split at h
  case _ ts' heq =>
    cases h
    exact hinf _ heq
  case _ =>
    split at h
    case _ ts' heq =>
      cases h
      exact hslash _ heq
    case _ => exact hdash _ h

theorem strategy_length {ss : List String} {ts : List Timestamp} :
    (inferStrategy ss = some ts → ts.length = ss.length)
  ∧ (slashStrategy ss = some ts → ts.length = ss.length)
  ∧ (dashStrategy ss = some ts → ts.length = ss.length) := by
  refine ⟨?_, fun h => traverseOption_length h, fun h => traverseOption_length h⟩
  intro h
  unfold inferStrategy at h
  split at h
  · cases h; rfl
  · split at h
    · exact traverseOption_length h
    · split at h
      · exact traverseOption_length h
      · cases h

theorem tryFormats_length {ss : List String} {ts : List Timestamp}
    (h : tryFormats ss = some ts) : ts.length = ss.length := by
  unfold tryFormats at h
  split at h
  case _ ts' heq =>
    cases h
    exact strategy_length.1 heq
  case _ =>
    split at h
    case _ ts' heq =>
      cases h
      exact strategy_length.2.1 heq
    case _ => exact strategy_length.2.2 h

/-! ## The claims -/

/-- Claim C5: a window whose filtered sub-table has zero rows is skipped
by both renderers — the file system is left exactly as it was, so no file
of that window is created or truncated — and the remaining windows of the
window loop are still processed exactly as if the empty window were not
there. -/
theorem claim5_empty_window_skips (u : Table) (a b : Nat) (l : String) (fs : FS)
    (h : (filter_by_day_range u a b).rows = []) :
    plot_inout_window (filter_by_day_range u a b) l fs = fs
  ∧ plot_pollen_window (filter_by_day_range u a b) l fs = fs
  ∧ processWindow u (a, b, l) fs = fs
  ∧ ∀ ws1 ws2 : List (Nat × Nat × String),
      runWindows u (ws1 ++ (a, b, l) :: ws2) fs = runWindows u (ws1 ++ ws2) fs := by
  have hemp : (filter_by_day_range u a b).isEmptyDf = true := by
    unfold Table.isEmptyDf
    rw [h]
    rfl
  have hio : ∀ fs' : FS, plot_inout_window (filter_by_day_range u a b) l fs' = fs' := by
    intro fs'
    unfold plot_inout_window
    rw [hemp]
    simp
  have hpo : ∀ fs' : FS, plot_pollen_window (filter_by_day_range u a b) l fs' = fs' := by
    intro fs'
    unfold plot_pollen_window
    rw [hemp]
    simp
  have hpw : ∀ fs' : FS, processWindow u (a, b, l) fs' = fs' := by
    intro fs'
    show plot_pollen_window (filter_by_day_range u a b) l
      (plot_inout_window (filter_by_day_range u a b) l fs') = fs'
    rw [hio fs', hpo fs']
  refine ⟨hio fs, hpo fs, hpw fs, ?_⟩
  intro ws1 ws2
  unfold runWindows
  rw [List.foldl_append, List.foldl_append, List.foldl_cons]
  rw [hpw (List.foldl (fun acc w => processWindow u w acc) fs ws1)]

/-- Witness for C5: on the normalized example table, the band `[1, 9]`
matches no row, both renderers leave the empty output directory alone,
and the window loop with this window equals the loop without it. -/
theorem claim5_witness :
    processWindow exU (1, 9, "01-09") [] = []
  ∧ runWindows exU [(1, 9, "01-09")] [] = runWindows exU [] [] := by
  have h := claim5_empty_window_skips exU 1 9 "01-09" [] (by decide)
  exact ⟨h.2.2.1, h.2.2.2 [] []⟩

/-- Claim C9: rendering is deterministic and idempotent.  Each renderer
writes exactly the file `<kind>_<label>.png`; writing twice with the same
sub-table equals writing once; the written content `inoutChart dff label`
(resp. `pollenChart dff label`) is a function of the sub-table and label
alone, whatever the prior file-system state; and no other file is read or
modified, so no chart depends on another chart's output. -/
theorem claim9_render_deterministic (dff : Table) (l : String) (fs : FS) :
    plot_inout_window dff l (plot_inout_window dff l fs) = plot_inout_window dff l fs
  ∧ plot_pollen_window dff l (plot_pollen_window dff l fs) = plot_pollen_window dff l fs
  ∧ (dff.isEmptyDf = false →
      fsGet (plot_inout_window dff l fs) ("inout_" ++ l ++ ".png")
        = some (inoutChart dff l)
    ∧ fsGet (plot_pollen_window dff l fs) ("pollen_" ++ l ++ ".png")
        = some (pollenChart dff l))
  ∧ (∀ name, name ≠ "inout_" ++ l ++ ".png" →
      fsGet (plot_inout_window dff l fs) name = fsGet fs name)
  ∧ (∀ name, name ≠ "pollen_" ++ l ++ ".png" →
      fsGet (plot_pollen_window dff l fs) name = fsGet fs name) := by
  cases he : dff.isEmptyDf with
  | true =>
    refine ⟨?_, ?_, ?_, ?_, ?_⟩
    · simp [plot_inout_window, he]
    · simp [plot_pollen_window, he]
    · intro hf
      simp at hf
    · intro name _
      simp [plot_inout_window, he]
    · intro name _
      simp [plot_pollen_window, he]
  | false =>
    refine ⟨?_, ?_, ?_, ?_, ?_⟩
    · simp only [plot_inout_window, he, Bool.false_eq_true, if_false]
      exact fsWrite_idem fs _ _
    · simp only [plot_pollen_window, he, Bool.false_eq_true, if_false]
      exact fsWrite_idem fs _ _
    · intro _
      constructor
      · simp only [plot_inout_window, he, Bool.false_eq_true, if_false]
        exact fsGet_fsWrite_self fs _ _
      · simp only [plot_pollen_window, he, Bool.false_eq_true, if_false]
        exact fsGet_fsWrite_self fs _ _
    · intro name hn
      simp only [plot_inout_window, he, Bool.false_eq_true, if_false]
      exact fsGet_fsWrite_ne fs _ name _ hn
    · intro name hn
      simp only [plot_pollen_window, he, Bool.false_eq_true, if_false]
      exact fsGet_fsWrite_ne fs _ name _ hn

/-- Witness for C9: on the non-empty normalized example table, writing
the traffic chart twice equals writing it once, and the file
`inout_01-10.png` holds exactly the chart computed from the sub-table. -/
theorem claim9_witness :
    plot_inout_window exU "01-10" (plot_inout_window exU "01-10" [])
      = plot_inout_window exU "01-10" []
  ∧ fsGet (plot_inout_window exU "01-10" []) "inout_01-10.png"
      = some (inoutChart exU "01-10") := by
  have h := claim9_render_deterministic exU "01-10" []
  exact ⟨h.1, (h.2.2.1 (by decide)).1⟩

theorem renameCol_idem (c : String) : renameCol (renameCol c) = renameCol c := by
  by_cases h1 : c = "inpollen"
  · subst h1
    decide
  · by_cases h2 : c = "outpollen"
    · subst h2
      decide
    · simp [renameCol, h1, h2]

/-- Claim C7: a table written with the alias column names normalizes to
exactly what its canonically-named counterpart (same data, aliases
renamed) normalizes to; and when neither alias occurs among the columns,
the rename step is the identity. -/
theorem claim7_alias_equivalence (t : Table) :
    normalize t = normalize (renameAliases t)
  ∧ (t.cols.contains "inpollen" = false → t.cols.contains "outpollen" = false →
      renameAliases t = t) := by
  constructor
  · have hren : renameAliases (renameAliases t) = renameAliases t := by
      unfold renameAliases
      simp only []
      congr 1
      rw [List.map_map]
      exact List.map_congr_left (fun c _ => renameCol_idem c)
    unfold normalize
    rw [hren]
  · intro h1 h2
    have hmap : t.cols.map renameCol = t.cols := by
      have : ∀ c ∈ t.cols, renameCol c = c := by
        intro c hc
        have hne1 : c ≠ "inpollen" := by
          intro hh
          exact (contains_false_iff _ _).mp h1 (hh ▸ hc)
        have hne2 : c ≠ "outpollen" := by
          intro hh
          exact (contains_false_iff _ _).mp h2 (hh ▸ hc)
        simp [renameCol, hne1, hne2]
      calc t.cols.map renameCol = t.cols.map id := List.map_congr_left (fun c hc => this c hc)
        _ = t.cols := List.map_id t.cols
    unfold renameAliases
    rw [hmap]

/-- Witness for C7: on a frame without alias columns the rename step is
the identity, and normalizing before or after the rename agrees. -/
theorem claim7_witness :
    renameAliases exC4 = exC4 ∧ normalize exT = normalize (renameAliases exT) := by
  exact ⟨(claim7_alias_equivalence exC4).2 (by decide) (by decide),
         (claim7_alias_equivalence exT).1⟩

/-- Counterexample for C4 as stated: on a frame lacking only `out_drone`,
the normalizer's error carries exactly the list `["out_drone"]` — the
full expected set is not part of the error, e.g. the required column
`in_worker` is absent from it. -/
theorem claim4_counterexample :
    normalize exC4 = Except.error (LoadError.missingColumns ["out_drone"])
  ∧ "in_worker" ∈ need_cols ∧ "in_worker" ∉ (["out_drone"] : List String) := by
  refine ⟨by decide, by decide, by decide⟩

/-- Claim C4 (amended): a table missing required columns after alias
reconciliation makes the normalizer fail, before any chart is attempted,
with an error naming exactly the missing columns (the error does not
additionally list the full expected column set). -/
theorem claim4_missing_columns_error (t : Table) (fs : FS)
    (h : missingCols (renameAliases t) ≠ []) :
    normalize t = Except.error (LoadError.missingColumns (missingCols (renameAliases t)))
  ∧ runMain t fs = fs := by
  have hni : (missingCols (renameAliases t)).isEmpty = false := by
    cases hmm : (missingCols (renameAliases t)).isEmpty with
    | false => rfl
    | true => exact absurd (List.isEmpty_iff.mp hmm) h
  have h1 : normalize t
      = Except.error (LoadError.missingColumns (missingCols (renameAliases t))) := by
    unfold normalize
    rw [hni]
    simp
  refine ⟨h1, ?_⟩
  unfold runMain
  rw [h1]

/-- Witness for C4 (amended): the frame lacking `out_drone` produces the
error naming exactly `out_drone`, and `main` draws no chart. -/
theorem claim4_witness :
    normalize exC4 = Except.error (LoadError.missingColumns ["out_drone"])
  ∧ runMain exC4 [] = [] := by
  have h := claim4_missing_columns_error exC4 [] (by decide)
  refine ⟨?_, h.2⟩
  rw [h.1]
  decide

/-- Claim C1: on a table without a `pollen_rate` column the normalizer
appends one whose value in row `i` is `in_pollen / (in_worker + in_pollen
+ in_drone)` over that row; a row whose denominator is exactly zero gets
the missing value `Cell.na` — not zero, and no arithmetic error is
raised (the derivation is total). -/
theorem claim1_pollen_rate_derivation (t : Table) (i : Nat) (w p d : ℚ)
    (hrect : t.Rect)
    (hnc : t.cols.contains "pollen_rate" = false)
    (hw : (t.colNum "in_worker")[i]? = some (some w))
    (hp : (t.colNum "in_pollen")[i]? = some (some p))
    (hd : (t.colNum "in_drone")[i]? = some (some d)) :
    ((addPollenRate t).col "pollen_rate")[i]?
      = some (if w + p + d = 0 then Cell.na else Cell.num (p / (w + p + d))) := by
  have hmem : "pollen_rate" ∉ t.cols := (contains_false_iff _ _).mp hnc
  have hA : addPollenRate t =
      { cols := t.cols ++ ["pollen_rate"],
        rows := List.zipWith (fun r v => r ++ [cellOfOpt v]) t.rows
          (seriesDiv (t.colNum "in_pollen")
            (seriesReplaceZeroNA (seriesAdd
              (seriesAdd (t.colNum "in_worker") (t.colNum "in_pollen"))
              (t.colNum "in_drone")))) } := by
    unfold addPollenRate
    rw [hnc]
    rfl
  obtain ⟨jW, r, hjW, hri, hwv⟩ := colNum_getElem?_inv hw
  have hrmem : r ∈ t.rows := List.mem_iff_getElem?.mpr ⟨i, hri⟩
  have hrlen : r.length = t.cols.length := hrect r hrmem
  have hcolIdx : (addPollenRate t).colIdx "pollen_rate" = some t.cols.length := by
    rw [hA]
    show idxOf? (t.cols ++ ["pollen_rate"]) "pollen_rate" = some t.cols.length
    exact idxOf?_append_self hmem
  have hrows : (addPollenRate t).rows = List.zipWith (fun r v => r ++ [cellOfOpt v]) t.rows
      (seriesDiv (t.colNum "in_pollen")
        (seriesReplaceZeroNA (seriesAdd
          (seriesAdd (t.colNum "in_worker") (t.colNum "in_pollen"))
          (t.colNum "in_drone")))) := by
    rw [hA]
  have h1 : (seriesAdd (t.colNum "in_worker") (t.colNum "in_pollen"))[i]?
      = some (some (w + p)) := by
    unfold seriesAdd
    exact getElem?_zipWith hw hp
  have h2 : (seriesAdd (seriesAdd (t.colNum "in_worker") (t.colNum "in_pollen"))
      (t.colNum "in_drone"))[i]? = some (some (w + p + d)) := by
    unfold seriesAdd
    exact getElem?_zipWith h1 hd
  have hval : ∀ v, (seriesDiv (t.colNum "in_pollen")
        (seriesReplaceZeroNA (seriesAdd
          (seriesAdd (t.colNum "in_worker") (t.colNum "in_pollen"))
          (t.colNum "in_drone"))))[i]? = some v →
      ((addPollenRate t).col "pollen_rate")[i]? = some (cellOfOpt v) := by
    intro v hv
    rw [col_of_idx hcolIdx, hrows, List.getElem?_map, getElem?_zipWith hri hv]
    simp only [Option.map_some']
    rw [← hrlen, List.getElem?_concat_length]
    rfl
  by_cases hz : w + p + d = 0
  · have h3 : (seriesReplaceZeroNA (seriesAdd
        (seriesAdd (t.colNum "in_worker") (t.colNum "in_pollen"))
        (t.colNum "in_drone")))[i]? = some none := by
      unfold seriesReplaceZeroNA
      rw [List.getElem?_map, h2]
      simp [hz]
    have h4 : (seriesDiv (t.colNum "in_pollen")
        (seriesReplaceZeroNA (seriesAdd
          (seriesAdd (t.colNum "in_worker") (t.colNum "in_pollen"))
          (t.colNum "in_drone"))))[i]? = some none := by
      unfold seriesDiv
      exact getElem?_zipWith hp h3
    rw [hval none h4, if_pos hz]
    rfl
  · have h3 : (seriesReplaceZeroNA (seriesAdd
        (seriesAdd (t.colNum "in_worker") (t.colNum "in_pollen"))
        (t.colNum "in_drone")))[i]? = some (some (w + p + d)) := by
      unfold seriesReplaceZeroNA
      rw [List.getElem?_map, h2]
      simp [hz]
    have h4 : (seriesDiv (t.colNum "in_pollen")
        (seriesReplaceZeroNA (seriesAdd
          (seriesAdd (t.colNum "in_worker") (t.colNum "in_pollen"))
          (t.colNum "in_drone"))))[i]? = some (some (p / (w + p + d))) := by
      unfold seriesDiv
      exact getElem?_zipWith hp h3
    rw [hval (some (p / (w + p + d))) h4, if_neg hz]
    rfl

/-- Witness for C1: on the concrete frame `exC1` the derived rate of row
0 (counts 3, 1, 0) is `1/4`, and row 1 (all inbound counts zero) gets the
missing value, not zero and not an error. -/
theorem claim1_witness :
    ((addPollenRate exC1).col "pollen_rate")[0]? = some (Cell.num (1 / 4))
  ∧ ((addPollenRate exC1).col "pollen_rate")[1]? = some Cell.na := by
  constructor
  · have h := claim1_pollen_rate_derivation exC1 0 3 1 0 (by decide) (by decide)
      (by decide) (by decide) (by decide)
    rw [h, if_neg (by norm_num)]
    norm_num
  · have h := claim1_pollen_rate_derivation exC1 1 0 0 0 (by decide) (by decide)
      (by decide) (by decide) (by decide)
    rw [h, if_pos (by norm_num)]

theorem col_length_of_mem {t : Table} {c : String} (h : c ∈ t.cols) :
    (t.col c).length = t.rows.length := by
  obtain ⟨j, hj, _⟩ := colIdx_some_of_mem h
  rw [col_of_idx hj, List.length_map]

/-- Claim C8: a supplied `pollen_rate` column is used as-is — the
derivation step returns the table unchanged, so nothing is recomputed or
overwritten; when the column is absent, every pre-existing column is
left cell-for-cell unchanged by the derivation; and the later
normalization stages never alter the column set produced by the
derivation step. -/
theorem claim8_existing_pollen_rate_kept (t : Table) :
    (t.cols.contains "pollen_rate" = true → addPollenRate t = t)
  ∧ (t.Rect → missingCols t = [] → ∀ c ∈ t.cols, (addPollenRate t).col c = t.col c)
  ∧ (∀ u, normalize t = Except.ok u → u.cols = (addPollenRate (renameAliases t)).cols) := by
  have hkeep : t.cols.contains "pollen_rate" = true → addPollenRate t = t := by
    intro h
    unfold addPollenRate
    rw [h]
    rfl
  refine ⟨hkeep, ?_, ?_⟩
  · intro hrect hmc c hc
    cases hcp : t.cols.contains "pollen_rate" with
    | true => rw [hkeep hcp]
    | false =>
      have hmemp : "pollen_rate" ∉ t.cols := (contains_false_iff _ _).mp hcp
      have hA : addPollenRate t =
          { cols := t.cols ++ ["pollen_rate"],
            rows := List.zipWith (fun r v => r ++ [cellOfOpt v]) t.rows
              (seriesDiv (t.colNum "in_pollen")
                (seriesReplaceZeroNA (seriesAdd
                  (seriesAdd (t.colNum "in_worker") (t.colNum "in_pollen"))
                  (t.colNum "in_drone")))) } := by
        unfold addPollenRate
        rw [hcp]
        rfl
      have hreq := missingCols_eq_nil_iff.mp hmc
      have hlenW : (t.colNum "in_worker").length = t.rows.length := by
        unfold Table.colNum
        rw [List.length_map, col_length_of_mem (hreq "in_worker" (by decide))]
      have hlenP : (t.colNum "in_pollen").length = t.rows.length := by
        unfold Table.colNum
        rw [List.length_map, col_length_of_mem (hreq "in_pollen" (by decide))]
      have hlenD : (t.colNum "in_drone").length = t.rows.length := by
        unfold Table.colNum
        rw [List.length_map, col_length_of_mem (hreq "in_drone" (by decide))]
      have hlenR : (seriesDiv (t.colNum "in_pollen")
          (seriesReplaceZeroNA (seriesAdd
            (seriesAdd (t.colNum "in_worker") (t.colNum "in_pollen"))
            (t.colNum "in_drone")))).length = t.rows.length := by
        unfold seriesDiv seriesReplaceZeroNA seriesAdd
        rw [List.length_zipWith, List.length_map, List.length_zipWith,
          List.length_zipWith, hlenW, hlenP, hlenD]
        omega
      obtain ⟨j, hj, hjlt⟩ := colIdx_some_of_mem hc
      have hj' : (addPollenRate t).colIdx c = some j := by
        rw [hA]
        show idxOf? (t.cols ++ ["pollen_rate"]) c = some j
        exact idxOf?_append_left hj
      rw [col_of_idx hj', col_of_idx hj, hA]
      show (List.map (fun r => (r[j]?).getD Cell.na)
          (List.zipWith (fun r v => r ++ [cellOfOpt v]) t.rows
            (seriesDiv (t.colNum "in_pollen")
              (seriesReplaceZeroNA (seriesAdd
                (seriesAdd (t.colNum "in_worker") (t.colNum "in_pollen"))
                (t.colNum "in_drone"))))))
        = List.map (fun r => (r[j]?).getD Cell.na) t.rows
      apply List.ext_getElem?
      intro n
      rw [List.getElem?_map, List.getElem?_map]
      cases hrn : t.rows[n]? with
      | none =>
        have hlen : t.rows.length ≤ n := List.getElem?_eq_none_iff.mp hrn
        have : (List.zipWith (fun r v => r ++ [cellOfOpt v]) t.rows
            (seriesDiv (t.colNum "in_pollen")
              (seriesReplaceZeroNA (seriesAdd
                (seriesAdd (t.colNum "in_worker") (t.colNum "in_pollen"))
                (t.colNum "in_drone")))))[n]? = none := by
          rw [List.getElem?_eq_none_iff, List.length_zipWith]
          omega
        rw [this]
      | some r =>
        have hnlt : n < t.rows.length := by
          by_contra hcon
          rw [List.getElem?_eq_none_iff.mpr (by omega)] at hrn
          cases hrn
        have hvn : ∃ v, (seriesDiv (t.colNum "in_pollen")
            (seriesReplaceZeroNA (seriesAdd
              (seriesAdd (t.colNum "in_worker") (t.colNum "in_pollen"))
              (t.colNum "in_drone"))))[n]? = some v := by
          cases hv : (seriesDiv (t.colNum "in_pollen")
              (seriesReplaceZeroNA (seriesAdd
                (seriesAdd (t.colNum "in_worker") (t.colNum "in_pollen"))
                (t.colNum "in_drone"))))[n]? with
          | none =>
            rw [List.getElem?_eq_none_iff, hlenR] at hv
            omega
          | some v => exact ⟨v, rfl⟩
        obtain ⟨v, hv⟩ := hvn
        rw [getElem?_zipWith hrn hv]
        simp only [Option.map_some']
        have hrlen : r.length = t.cols.length :=
          hrect r (List.mem_iff_getElem?.mpr ⟨n, hrn⟩)
        have : (r ++ [cellOfOpt v])[j]? = r[j]? := by
          rw [List.getElem?_append]
          rw [if_pos (by omega)]
        rw [this]
  · intro u hu
    obtain ⟨hm, t3, hpd, rfl⟩ := normalize_ok_inv hu
    obtain ⟨ss, ts, hss, htf, rfl⟩ := parseDtCol_inv hpd
    rw [sortByDt_cols]
    have hdt1 : "dt" ∈ (renameAliases t).cols :=
      missingCols_eq_nil_iff.mp hm "dt" (by decide)
    have hdt : "dt" ∈ (addPollenRate (renameAliases t)).cols := by
      unfold addPollenRate
      cases hc : (renameAliases t).cols.contains "pollen_rate" with
      | true => simpa using hdt1
      | false =>
        show "dt" ∈ (if false = true then renameAliases t else _).cols
        show "dt" ∈ (renameAliases t).cols ++ ["pollen_rate"]
        exact List.mem_append_left _ hdt1
    obtain ⟨j, hj, _⟩ := colIdx_some_of_mem hdt
    rw [setCol_cols_of_some hj]

/-- Witness for C8: the example frame that already carries `pollen_rate`
passes the derivation step unchanged, and on the frame without it the
derivation leaves the `in_worker` column untouched. -/
theorem claim8_witness :
    addPollenRate exT = exT
  ∧ (addPollenRate exC1).col "in_worker" = exC1.col "in_worker" := by
  refine ⟨(claim8_existing_pollen_rate_kept exT).1 (by decide), ?_⟩
  exact (claim8_existing_pollen_rate_kept exC1).2.1 (by decide) (by decide)
    "in_worker" (by decide)

theorem addPollenRate_mem_cols {t : Table} {c : String} (h : c ∈ t.cols) :
    c ∈ (addPollenRate t).cols := by
  unfold addPollenRate
  cases hc : t.cols.contains "pollen_rate" with
  | true => simpa using h
  | false =>
    show c ∈ (if false = true then t else _).cols
    show c ∈ t.cols ++ ["pollen_rate"]
    exact List.mem_append_left _ h

theorem rowDay_eq_cellDay (j : Nat) (r : List Cell) :
    rowDay j r = cellDay ((r[j]?).getD Cell.na) := by
  unfold rowDay cellDay
  cases h : r[j]? with
  | none => rfl
  | some c => cases c <;> rfl

theorem lastDay_eq_foldr {u : Table} {j : Nat} (hj : u.colIdx "dt" = some j) :
    lastDay u = (u.rows.map (fun r => rowDay j r)).foldr max 0 := by
  unfold lastDay
  rw [col_of_idx hj, List.map_map]
  congr 1
  apply List.map_congr_left
  intro r _
  exact (rowDay_eq_cellDay j r).symm

theorem rowDay_le_lastDay {u : Table} {j : Nat} (hj : u.colIdx "dt" = some j)
    {r : List Cell} (hr : r ∈ u.rows) : rowDay j r ≤ lastDay u := by
  rw [lastDay_eq_foldr hj]
  exact le_foldr_max (List.mem_map.mpr ⟨r, hr, rfl⟩)

theorem lastDay_is_observed {u : Table} {j : Nat} (hj : u.colIdx "dt" = some j)
    (hne : u.rows ≠ []) : ∃ r ∈ u.rows, rowDay j r = lastDay u := by
  rw [lastDay_eq_foldr hj]
  have hmne : u.rows.map (fun r => rowDay j r) ≠ [] := by
    intro hh
    exact hne (List.map_eq_nil_iff.mp hh)
  have := foldr_max_mem hmne
  obtain ⟨r, hr, hrd⟩ := List.mem_map.mp this
  exact ⟨r, hr, hrd⟩

theorem filter_rows_of_idx {u : Table} {j : Nat} (hj : u.colIdx "dt" = some j)
    (a b : Nat) : (filter_by_day_range u a b).rows
      = u.rows.filter (fun r => decide (a ≤ rowDay j r ∧ rowDay j r ≤ b)) := by
  unfold filter_by_day_range
  rw [hj]

theorem normalize_ok_dt_idx {t u : Table} (hu : normalize t = Except.ok u) :
    ∃ j, u.colIdx "dt" = some j := by
  obtain ⟨hm, t3, hpd, rfl⟩ := normalize_ok_inv hu
  obtain ⟨ss, ts, hss, htf, rfl⟩ := parseDtCol_inv hpd
  have hdt : "dt" ∈ (addPollenRate (renameAliases t)).cols :=
    addPollenRate_mem_cols (missingCols_eq_nil_iff.mp hm "dt" (by decide))
  obtain ⟨j, hj, _⟩ := colIdx_some_of_mem hdt
  refine ⟨j, ?_⟩
  show idxOf? (sortByDt _).cols "dt" = some j
  rw [sortByDt_cols, setCol_cols_of_some hj]
  exact hj

theorem normalize_ok_day_bounds {t u : Table} (hrect : t.Rect)
    (hu : normalize t = Except.ok u) :
    ∃ j, u.colIdx "dt" = some j
  ∧ ∀ r ∈ u.rows, 1 ≤ rowDay j r ∧ rowDay j r ≤ 31 := by
  obtain ⟨hm, t3, hpd, rfl⟩ := normalize_ok_inv hu
  obtain ⟨ss, ts, hss, htf, rfl⟩ := parseDtCol_inv hpd
  have hrect2 : (addPollenRate (renameAliases t)).Rect :=
    rect_addPollenRate (rect_renameAliases hrect)
  have hdt : "dt" ∈ (addPollenRate (renameAliases t)).cols :=
    addPollenRate_mem_cols (missingCols_eq_nil_iff.mp hm "dt" (by decide))
  obtain ⟨j, hj, hjlt⟩ := colIdx_some_of_mem hdt
  refine ⟨j, ?_, ?_⟩
  · show idxOf? (sortByDt _).cols "dt" = some j
    rw [sortByDt_cols, setCol_cols_of_some hj]
    exact hj
  · intro r hr
    have hr3 : r ∈ ((addPollenRate (renameAliases t)).setCol "dt"
        (ts.map Cell.time)).rows :=
      (sortByDt_rows_perm _).mem_iff.mp hr
    rw [setCol_rows_of_some hj] at hr3
    obtain ⟨n, hn⟩ := List.mem_iff_getElem?.mp hr3
    obtain ⟨r2, v, hr2, hv, rfl⟩ := zipWith_getElem?_inv hn
    obtain ⟨x, hx, rfl⟩ : ∃ x, ts[n]? = some x ∧ v = Cell.time x := by
      rw [List.getElem?_map] at hv
      obtain ⟨x, hx, hvx⟩ := Option.map_eq_some'.mp hv
      exact ⟨x, hx, hvx.symm⟩
    have hr2len : r2.length = (addPollenRate (renameAliases t)).cols.length :=
      hrect2 r2 (List.mem_iff_getElem?.mpr ⟨n, hr2⟩)
    have hset : (r2.set j (Cell.time x))[j]? = some (Cell.time x) :=
      List.getElem?_set_self (by omega)
    have hday : rowDay j (r2.set j (Cell.time x)) = x.day := by
      unfold rowDay
      rw [hset]
    rw [hday]
    exact tryFormats_day_valid htf x (List.mem_iff_getElem?.mpr ⟨n, hx⟩)

/-- Claim C2: segmentation of a normalized table produces exactly three
sub-tables, over the inclusive day-of-month bands `[1, 10]`, `[11, 20]`
and `[21, lastDay]` with the matching labels; each filter keeps exactly
the rows whose day lies in the band, inclusively at both ends, in their
original order (the filtered rows form a sublist of the table's rows);
and `lastDay` is the maximum day-of-month actually observed. -/
theorem claim2_three_windows (t u : Table) (hu : normalize t = Except.ok u) :
    ∃ j, u.colIdx "dt" = some j
  ∧ segments u = [filter_by_day_range u 1 10, filter_by_day_range u 11 20,
      filter_by_day_range u 21 (lastDay u)]
  ∧ (windows u).map (fun w => w.2.2) = ["01-10", "11-20", "21-" ++ pad2 (lastDay u)]
  ∧ (∀ a b : Nat, (filter_by_day_range u a b).rows.Sublist u.rows)
  ∧ (∀ (a b : Nat) (r : List Cell), r ∈ (filter_by_day_range u a b).rows ↔
      (r ∈ u.rows ∧ a ≤ rowDay j r ∧ rowDay j r ≤ b))
  ∧ (∀ r ∈ u.rows, rowDay j r ≤ lastDay u)
  ∧ (u.rows ≠ [] → ∃ r ∈ u.rows, rowDay j r = lastDay u) := by
  obtain ⟨j, hj⟩ := normalize_ok_dt_idx hu
  refine ⟨j, hj, rfl, rfl, ?_, ?_, ?_, ?_⟩
  · intro a b
    rw [filter_rows_of_idx hj]
    exact List.filter_sublist _
  · intro a b r
    rw [filter_rows_of_idx hj, List.mem_filter, decide_eq_true_eq]
  · intro r hr
    exact rowDay_le_lastDay hj hr
  · intro hne
    exact lastDay_is_observed hj hne

/-- Witness for C2: on the normalized example table (observed days 10,
11, 21) segmentation returns the three expected windows with labels
`01-10`, `11-20`, `21-21`, and each window has exactly its one matching
row. -/
theorem claim2_witness :
    segments exU = [filter_by_day_range exU 1 10, filter_by_day_range exU 11 20,
      filter_by_day_range exU 21 (lastDay exU)]
  ∧ (windows exU).map (fun w => w.2.2) = ["01-10", "11-20", "21-21"]
  ∧ (filter_by_day_range exU 1 10).rows.length = 1
  ∧ (filter_by_day_range exU 11 20).rows.length = 1
  ∧ (filter_by_day_range exU 21 (lastDay exU)).rows.length = 1 := by
  obtain ⟨j, hj, hsegs, hlab, hsub, hiff, hmax, hex⟩ :=
    claim2_three_windows exT exU (by decide)
  refine ⟨hsegs, ?_, by decide, by decide, by decide⟩
  rw [hlab]
  decide

/-- Claim C10: the three windows partition the normalized table — the
concatenation of the three filtered row lists is a permutation of the
table's rows, so every row occurrence lands in exactly one window; and
when the maximum observed day is below 21 the third window is empty
rather than an error. -/
theorem claim10_windows_partition (t u : Table) (hrect : t.Rect)
    (hu : normalize t = Except.ok u) :
    ((filter_by_day_range u 1 10).rows ++ (filter_by_day_range u 11 20).rows
      ++ (filter_by_day_range u 21 (lastDay u)).rows).Perm u.rows
  ∧ (lastDay u < 21 → (filter_by_day_range u 21 (lastDay u)).rows = []) := by
  obtain ⟨j, hj, hdays⟩ := normalize_ok_day_bounds hrect hu
  have hle : ∀ r ∈ u.rows, rowDay j r ≤ lastDay u :=
    fun r hr => rowDay_le_lastDay hj hr
  constructor
  · rw [filter_rows_of_idx hj 1 10, filter_rows_of_idx hj 11 20,
      filter_rows_of_idx hj 21 (lastDay u)]
    apply filter3_perm
    intro x hx
    have h1 := (hdays x hx).1
    have h2 := hle x hx
    simp only [decide_eq_true_eq, decide_eq_false_iff_not]
    omega
  · intro hld
    rw [filter_rows_of_idx hj 21 (lastDay u), List.filter_eq_nil_iff]
    intro r hr
    have := hle r hr
    simp only [decide_eq_true_eq]
    omega

/-- Witness for C10: on the normalized example table (days 10, 11, 21)
the three filtered row lists together are a permutation of the full row
list; the day-1-to-9 variant below 21 shows nothing else. -/
theorem claim10_witness :
    ((filter_by_day_range exU 1 10).rows ++ (filter_by_day_range exU 11 20).rows
      ++ (filter_by_day_range exU 21 (lastDay exU)).rows).Perm exU.rows
  ∧ exU.rows.length = 3 := by
  exact ⟨(claim10_windows_partition exT exU (by decide) (by decide)).1, by decide⟩

theorem parseDtCol_eq_none {t : Table} {ss : List String}
    (hss : traverseOption cellStr (t.col "dt") = some ss)
    (htf : tryFormats ss = none) : parseDtCol t = none := by
  unfold parseDtCol
  rw [hss]
  show (match tryFormats ss with
    | none => none
    | some ts => some (t.setCol "dt" (ts.map Cell.time))) = none
  rw [htf]

/-- Claim C3: timestamp parsing tries exactly three strategies in order —
automatic inference, then `YYYY/MM/DD HH:MM`, then `YYYY-MM-DD HH:MM` — a
result exists iff some strategy parses every row, the result is that of
the first succeeding strategy, the parsed column has exactly one
timestamp per input row (no row is dropped), and when no strategy parses
every row the normalizer fails with the cannot-parse error. -/
theorem claim3_timestamp_fallback :
    (∀ (ss : List String) (ts : List Timestamp), tryFormats ss = some ts ↔
      ∃ k, k < 3 ∧ strategyAt k ss = some ts ∧ ∀ j, j < k → strategyAt j ss = none)
  ∧ (∀ ss : List String, tryFormats ss = none ↔ ∀ k, k < 3 → strategyAt k ss = none)
  ∧ (∀ (ss : List String) (ts : List Timestamp), tryFormats ss = some ts →
      ts.length = ss.length)
  ∧ (∀ (t : Table) (ss : List String), missingCols (renameAliases t) = [] →
      traverseOption cellStr ((addPollenRate (renameAliases t)).col "dt") = some ss →
      tryFormats ss = none →
      normalize t = Except.error LoadError.cannotParseDt) := by
  have hs0 : ∀ ss : List String, strategyAt 0 ss = inferStrategy ss := fun _ => rfl
  have hs1 : ∀ ss : List String, strategyAt 1 ss = slashStrategy ss := fun _ => rfl
  have hs2 : ∀ ss : List String, strategyAt 2 ss = dashStrategy ss := fun _ => rfl
  refine ⟨?_, ?_, ?_, ?_⟩
  · intro ss ts
    constructor
    · intro h
      unfold tryFormats at h
      split at h
      case _ ts0 heq0 =>
        cases h
        exact ⟨0, by omega, heq0, by omega⟩
      case _ heq0 =>
        split at h
        case _ ts1 heq1 =>
          cases h
          refine ⟨1, by omega, heq1, ?_⟩
          intro k hk
          interval_cases k
          rw [hs0]
          exact heq0
        case _ heq1 =>
          refine ⟨2, by omega, h, ?_⟩
          intro k hk
          interval_cases k
          · rw [hs0]
            exact heq0
          · rw [hs1]
            exact heq1
    · rintro ⟨k, hk, hsome, hearl⟩
      interval_cases k
      · rw [hs0] at hsome
        unfold tryFormats
        rw [hsome]
      · have h0 := hearl 0 (by omega)
        rw [hs0] at h0
        rw [hs1] at hsome
        unfold tryFormats
        rw [h0, hsome]
      · have h0 := hearl 0 (by omega)
        have h1 := hearl 1 (by omega)
        rw [hs0] at h0
        rw [hs1] at h1
        rw [hs2] at hsome
        unfold tryFormats
        rw [h0, h1, hsome]
  · intro ss
    constructor
    · intro h
      unfold tryFormats at h
      split at h
      case _ ts0 heq0 => cases h
      case _ heq0 =>
        split at h
        case _ ts1 heq1 => cases h
        case _ heq1 =>
          intro k hk
          interval_cases k
          · rw [hs0]
            exact heq0
          · rw [hs1]
            exact heq1
          · rw [hs2]
            exact h
    · intro h
      have h0 := h 0 (by omega)
      have h1 := h 1 (by omega)
      have h2 := h 2 (by omega)
      rw [hs0] at h0
      rw [hs1] at h1
      rw [hs2] at h2
      unfold tryFormats
      rw [h0, h1, h2]
  · intro ss ts h
    exact tryFormats_length h
  · intro t ss hm hss htf
    have hni : (missingCols (renameAliases t)).isEmpty = true := by
      rw [hm]
      rfl
    unfold normalize
    rw [hni, parseDtCol_eq_none hss htf]
    rfl

/-- Witness for C3: the slash-format example parses (under the first
succeeding strategy); a nonsense value defeats all three strategies; and
a table with that value makes the normalizer fail with the cannot-parse
error. -/
theorem claim3_witness :
    tryFormats ["2024/05/01 08:00"] = some [⟨2024, 5, 1, 8, 0⟩]
  ∧ tryFormats ["yesterday noon"] = none
  ∧ normalize exC3 = Except.error LoadError.cannotParseDt := by
  refine ⟨?_, ?_, ?_⟩
  · refine (claim3_timestamp_fallback.1 _ _).mpr ⟨0, by omega, by decide, ?_⟩
    intro j hj
    omega
  · refine (claim3_timestamp_fallback.2.1 _).mpr ?_
    intro k hk
    interval_cases k <;> decide
  · exact claim3_timestamp_fallback.2.2.2 exC3 ["yesterday noon"] (by decide)
      (by decide) (by decide)

end BeeMonitor
